import Mathlib

/-!
Verification of the pricebattle-bots core against its specification.

The TypeScript source is shallowly embedded: classes become plain
functions over explicit state, SQL tables become lists of row
structures, asynchronous remote calls become explicit parameters
describing the outcome of each external interaction, and JavaScript
`number` arithmetic is modelled in exact rational arithmetic (`ℚ`).
Monetary amounts that are numeric strings on chain (e.g. the raw
smallest-unit stake `"1000000"`) are modelled by the natural number
that `parseInt` yields on them.
-/

namespace PriceBattle

/-! ## Challenge data model (src/src/types/challenge.ts) -/

namespace BATTLE_STATUS

def OPEN : Nat := 0
def ACTIVE : Nat := 1
def RESOLVED : Nat := 2
def CANCELLED : Nat := 3
def EXPIRED : Nat := 4
def TIE : Nat := 5

end BATTLE_STATUS

/-- An on-chain challenge row as returned by `getTableRows` on the
`challenges` table (interface `Challenge`, src/src/types/challenge.ts).
`amount` is the raw smallest-unit integer (a numeric string on chain,
read through `parseInt(amount, 10)` wherever the code consumes it, so we
keep the parsed value). `start_price` / `end_price` stay strings as in
the source. Fields that the chain leaves unset are `""` for strings and
`0` for numbers, matching the JavaScript falsiness checks in the DB
layer. -/
structure Challenge where
  id : Nat
  creator : String
  opponent : String
  amount : Nat
  direction : Nat
  oracle_index : Nat
  duration : Nat
  start_price : String
  end_price : String
  created_at : Nat
  started_at : Nat
  expires_at : Nat
  status : Nat
  winner : String
  deriving Repr, DecidableEq

/-! ## Wager queries (src/src/services/challenges.ts)

`getActiveChallenges` and `getResolvableChallenges` each pull the wager
table and filter it; embedded as pure filters over the pulled rows with
the query-time clock `now` (`nowSeconds()`) passed explicitly. -/

/-- Embedding of `ChallengeService.getActiveChallenges`: wagers whose status is
`ACTIVE` (src/src/services/challenges.ts lines 63-66). -/
def getActiveChallenges (all : List Challenge) : List Challenge :=
  all.filter (fun c => c.status == BATTLE_STATUS.ACTIVE)

/-- Embedding of `ChallengeService.getResolvableChallenges`: active wagers whose
`started_at + duration` has passed (src/src/services/challenges.ts
lines 87-95). -/
def getResolvableChallenges (all : List Challenge) (now : Nat) : List Challenge :=
  (getActiveChallenges all).filter (fun c => decide (now ≥ c.started_at + c.duration))

/-- C1: for every set of wager rows returned by a sync and every
query-time `now`, every wager returned by `getResolvableChallenges` is
also returned by `getActiveChallenges` (so has status Active), and
satisfies `started_at + duration ≤ now`. -/
theorem resolvable_subset_active (all : List Challenge) (now : Nat) (c : Challenge)
    (h : c ∈ getResolvableChallenges all now) :
    c ∈ getActiveChallenges all ∧ c.status = BATTLE_STATUS.ACTIVE ∧
      c.started_at + c.duration ≤ now := by
  unfold getResolvableChallenges at h
  have h1 := List.mem_filter.mp h
  refine ⟨h1.1, ?_, ?_⟩
  · have h2 := List.mem_filter.mp h1.1
    simpa using h2.2
  · simpa using h1.2

/-- A concrete active, matured wager used to instantiate `resolvable_subset_active`. -/
def c1Sample : Challenge :=
  { id := 7, creator := "alice", opponent := "bob", amount := 1000000, direction := 1,
    oracle_index := 4, duration := 300, start_price := "9000000000000", end_price := "",
    created_at := 50, started_at := 100, expires_at := 0, status := 1, winner := "" }

/-- Witness for C1: the subset property holds on a concrete sync result. -/
theorem resolvable_subset_active_witness :
    c1Sample ∈ getActiveChallenges [c1Sample] ∧
      c1Sample.status = BATTLE_STATUS.ACTIVE ∧
      c1Sample.started_at + c1Sample.duration ≤ 500 :=
  resolvable_subset_active [c1Sample] 500 c1Sample (by decide)

/-! ## Retry with backoff (src/src/utils/retry.ts) and failover
(RpcClient.withFailover, src/src/blockchain/client)

`withRetry` loops `for attempt = 0; attempt <= maxRetries; attempt++`,
invoking the wrapped function once per iteration; on failure it keeps
the error, and when further attempts remain it sleeps `delay` and then
updates `delay = min(delay * backoffMultiplier, maxDelay)`. The
behaviour of the transport is embedded as a function from the attempt number
to the outcome of that attempt. The embedding records the result, how many
times the transport was invoked, and the list of sleep delays. -/

structure RetryOutcome (α : Type) where
  result : Except String α
  attempts : Nat
  delays : List Nat
  deriving Repr

/-- The retry loop of `withRetry` (src/src/utils/retry.ts lines 26-45),
with the remaining iteration count as fuel. The carried string is
`lastError`; the loop always runs at least once, so the fuel-0 base
case (returning the carried error, as the final `throw lastError`) is
reached only after at least one failing attempt. -/
def withRetryLoop (fn : Nat → Except String α) (mult maxDelay : Nat) :
    Nat → Nat → Nat → String → RetryOutcome α
  | 0, _, _, le => ⟨.error le, 0, []⟩
  | fuel + 1, attempt, delay, _ =>
    match fn attempt with
    | .ok a => ⟨.ok a, 1, []⟩
    | .error e =>
      match fuel with
      | 0 => ⟨.error e, 1, []⟩
      | m + 1 =>
        let rest := withRetryLoop fn mult maxDelay (m + 1) (attempt + 1)
          (min (delay * mult) maxDelay) e
        ⟨rest.result, rest.attempts + 1, delay :: rest.delays⟩

/-- Embedding of `withRetry` (src/src/utils/retry.ts lines 18-46): `maxRetries + 1`
loop iterations starting at attempt 0 with the initial delay. -/
def withRetry (fn : Nat → Except String α)
    (maxRetries initialDelay maxDelay mult : Nat) : RetryOutcome α :=
  withRetryLoop fn mult maxDelay (maxRetries + 1) 0 initialDelay ""

/-- Embedding of `RpcClient.withFailover`: wraps every logical read/write in
`withRetry` with `maxRetries = endpoints.length`, `initialDelay: 500`,
`maxDelay: 5000` (and the default multiplier 2). The endpoint rotation
performed before each rethrow does not affect the retry bookkeeping
modelled here. -/
def withFailover (fn : Nat → Except String α) (endpointCount : Nat) : RetryOutcome α :=
  withRetry fn endpointCount 500 5000 2

/-- A transport whose every attempt fails. -/
def alwaysFailTransport : Nat → Except String Nat :=
  fun _ => .error "endpoint unreachable"

/-- Counterexample to C4: with a single endpoint (`N = 1`) the failover
client invokes the transport twice (one initial attempt plus one retry),
not at most `N = 1` times as the claim states. -/
theorem withRetry_attempt_count_cex :
    (withFailover alwaysFailTransport 1).attempts = 2 ∧ ¬ (2 ≤ 1) := by
  constructor
  · rfl
  · decide

/-- Delay before the `k`-th retry: 500ms doubled each time, capped at 5000ms. -/
def failoverDelay (k : Nat) : Nat := min (500 * 2 ^ k) 5000

theorem withRetryLoop_attempts_le (fn : Nat → Except String α) (mult maxDelay : Nat) :
    ∀ fuel attempt delay le,
      (withRetryLoop fn mult maxDelay fuel attempt delay le).attempts ≤ fuel := by
  intro fuel
  induction fuel with
  | zero => intro attempt delay le; simp [withRetryLoop]
  | succ n ih =>
    intro attempt delay le
    unfold withRetryLoop
    cases fn attempt with
    | ok a => simp
    | error e =>
      cases n with
      | zero => simp
      | succ m =>
        simpa using Nat.succ_le_succ (ih (attempt + 1) (min (delay * mult) maxDelay) e)

theorem withRetryLoop_attempts_pos (fn : Nat → Except String α) (mult maxDelay : Nat) :
    ∀ fuel attempt delay le, 1 ≤ fuel →
      1 ≤ (withRetryLoop fn mult maxDelay fuel attempt delay le).attempts := by
  intro fuel
  cases fuel with
  | zero => intro _ _ _ h; omega
  | succ n =>
    intro attempt delay le _
    unfold withRetryLoop
    cases fn attempt with
    | ok a => simp
    | error e => cases n <;> simp

theorem withRetryLoop_last_error (fn : Nat → Except String α) (mult maxDelay : Nat) :
    ∀ fuel attempt delay le, 1 ≤ fuel →
      ∀ e, (withRetryLoop fn mult maxDelay fuel attempt delay le).result = .error e →
        fn (attempt + (withRetryLoop fn mult maxDelay fuel attempt delay le).attempts - 1)
          = .error e := by
  intro fuel
  induction fuel with
  | zero => intro _ _ _ h; omega
  | succ n ih =>
    intro attempt delay le _ e
    unfold withRetryLoop
    cases hfn : fn attempt with
    | ok a => simp
    | error e' =>
      cases n with
      | zero =>
        intro h
        simp only at h
        simp only [Except.error.injEq] at h
        simpa [h] using hfn
      | succ m =>
        intro h
        simp only at h
        have := ih (attempt + 1) (min (delay * mult) maxDelay) e' (by omega) e h
        have hpos := withRetryLoop_attempts_pos fn mult maxDelay (m + 1) (attempt + 1)
          (min (delay * mult) maxDelay) e' (by omega)
        simp only
        have harith :
            attempt + 1 +
              (withRetryLoop fn mult maxDelay (m + 1) (attempt + 1)
                (min (delay * mult) maxDelay) e').attempts - 1 =
            attempt +
              ((withRetryLoop fn mult maxDelay (m + 1) (attempt + 1)
                (min (delay * mult) maxDelay) e').attempts + 1) - 1 := by
          omega
        rw [← harith]
        exact this

theorem min_cap_mul_pow (d M m k : Nat) (hm : 1 ≤ m) :
    min (min (d * m) M * m ^ k) M = min (d * m ^ (k + 1)) M := by
  rcases le_total (d * m) M with h | h
  · rw [min_eq_left h, pow_succ]
    ring_nf
  · rw [min_eq_right h]
    have h1 : M ≤ M * m ^ k := Nat.le_mul_of_pos_right M (Nat.pos_pow_of_pos k hm)
    have h2 : M ≤ d * m ^ (k + 1) := by
      calc M ≤ M * m ^ k := h1
        _ ≤ d * m * m ^ k := Nat.mul_le_mul_right _ h
        _ = d * m ^ (k + 1) := by rw [pow_succ]; ring
    rw [min_eq_right h1, min_eq_right h2]

theorem withRetryLoop_delays (fn : Nat → Except String α) (mult maxDelay : Nat)
    (hm : 1 ≤ mult) :
    ∀ fuel attempt delay le, delay ≤ maxDelay →
      (withRetryLoop fn mult maxDelay fuel attempt delay le).delays =
        (List.range ((withRetryLoop fn mult maxDelay fuel attempt delay le).attempts - 1)).map
          (fun k => min (delay * mult ^ k) maxDelay) := by
  intro fuel
  induction fuel with
  | zero => intro attempt delay le _; simp [withRetryLoop]
  | succ n ih =>
    intro attempt delay le hd
    unfold withRetryLoop
    cases fn attempt with
    | ok a => simp
    | error e =>
      cases n with
      | zero => simp
      | succ m =>
        simp only
        have hd' : min (delay * mult) maxDelay ≤ maxDelay := min_le_right _ _
        have hrec := ih (attempt + 1) (min (delay * mult) maxDelay) e hd'
        have hpos := withRetryLoop_attempts_pos fn mult maxDelay (m + 1) (attempt + 1)
          (min (delay * mult) maxDelay) e (by omega)
        set rest := withRetryLoop fn mult maxDelay (m + 1) (attempt + 1)
          (min (delay * mult) maxDelay) e with hrest
        obtain ⟨j, hj⟩ : ∃ j, rest.attempts = j + 1 := ⟨rest.attempts - 1, by omega⟩
        rw [hrec, hj]
        simp only [Nat.add_sub_cancel]
        rw [List.range_succ_eq_map]
        simp only [List.map_cons, List.map_map]
        congr 1
        · simp [hd]
        · apply List.map_congr_left
          intro k _
          simp only [Function.comp]
          exact min_cap_mul_pow delay maxDelay mult k hm

/-- C4 (amended): every logical call through the failover client with
`N` endpoints invokes the transport at most `N + 1` times (one initial
attempt plus up to `N` retries); the delay before the `k`-th retry is
500ms doubled each retry and capped at 5000ms; and if the call fails,
the surfaced error is the error of the last attempt made. -/
theorem withFailover_retry_envelope (fn : Nat → Except String α) (endpointCount : Nat) :
    (withFailover fn endpointCount).attempts ≤ endpointCount + 1 ∧
    (withFailover fn endpointCount).delays =
      (List.range ((withFailover fn endpointCount).attempts - 1)).map failoverDelay ∧
    (∀ e, (withFailover fn endpointCount).result = .error e →
      fn ((withFailover fn endpointCount).attempts - 1) = .error e) := by
  refine ⟨?_, ?_, ?_⟩
  · exact withRetryLoop_attempts_le fn 2 5000 (endpointCount + 1) 0 500 ""
  · have := withRetryLoop_delays fn 2 5000 (by omega) (endpointCount + 1) 0 500 "" (by omega)
    simpa [withFailover, withRetry, failoverDelay] using this
  · intro e he
    have := withRetryLoop_last_error fn 2 5000 (endpointCount + 1) 0 500 "" (by omega) e he
    simpa [withFailover, withRetry] using this

/-- Witness for amended C4: a transport that always fails on two
endpoints is attempted three times, sleeps 500ms then 1000ms, and the
surfaced error is the error of the last attempt. -/
theorem withFailover_retry_envelope_witness :
    (withFailover alwaysFailTransport 2).attempts ≤ 3 ∧
    (withFailover alwaysFailTransport 2).delays =
      (List.range ((withFailover alwaysFailTransport 2).attempts - 1)).map failoverDelay ∧
    alwaysFailTransport ((withFailover alwaysFailTransport 2).attempts - 1) =
      .error "endpoint unreachable" :=
  ⟨(withFailover_retry_envelope alwaysFailTransport 2).1,
   (withFailover_retry_envelope alwaysFailTransport 2).2.1,
   (withFailover_retry_envelope alwaysFailTransport 2).2.2 "endpoint unreachable" rfl⟩

/-! ## Performance ledger (src/src/db/queries.ts, `performance` table)

Rows are keyed by calendar date; dates are modelled as naturals (the
source has `YYYY-MM-DD` strings which compare lexicographically, which agrees
with chronological order). All numeric columns default to 0
(001_initial.ts, 002_confidence_streaks.ts), so a freshly inserted row
carries streak value 0. The confidence-bucket table lives apart from
this one and is not touched by any claim, so the `confidence` branches
of the increment methods (which only write that other table) are not
part of this state. -/

structure PerfRow where
  date : Nat
  wins : Nat := 0
  losses : Nat := 0
  ties : Nat := 0
  total_won : ℚ := 0
  total_lost : ℚ := 0
  resolver_earnings : ℚ := 0
  current_streak : Int := 0
  best_win_streak : Int := 0
  worst_loss_streak : Int := 0
  deriving Repr, DecidableEq

/-- SQL `SELECT ... WHERE date = d` (first matching row). -/
def findRow (t : List PerfRow) (d : Nat) : Option PerfRow :=
  t.find? (fun r => r.date == d)

/-- SQL `SELECT ... FROM performance ORDER BY date DESC LIMIT 1`: the row
with the greatest date (dates are unique: the primary key of the table). -/
def mostRecent : List PerfRow → Option PerfRow
  | [] => none
  | r :: rs =>
    match mostRecent rs with
    | none => some r
    | some m => if m.date ≤ r.date then some r else some m

/-- Embedding of `DatabaseQueries.updateStreak` (src/src/db/queries.ts lines
422-473): read the streak triple from the row of the given date if present, else from
the most recent row, else zeros; a win increments a non-negative streak
or resets to +1 and raises `best_win_streak`; a loss decrements a
non-positive streak or resets to -1 and lowers `worst_loss_streak`;
then update that row in place or insert it. -/
def updateStreak (isWin : Bool) (date : Nat) (t : List PerfRow) : List PerfRow :=
  let prev : Int × Int × Int :=
    match findRow t date with
    | some r => (r.current_streak, r.best_win_streak, r.worst_loss_streak)
    | none =>
      match mostRecent t with
      | some r => (r.current_streak, r.best_win_streak, r.worst_loss_streak)
      | none => (0, 0, 0)
  let cur := prev.1
  let best := prev.2.1
  let worst := prev.2.2
  let next : Int × Int × Int :=
    if isWin then
      let c := if 0 ≤ cur then cur + 1 else 1
      (c, max best c, worst)
    else
      let c := if cur ≤ 0 then cur - 1 else -1
      (c, best, min worst c)
  if t.any (fun r => r.date == date) then
    t.map (fun r => if r.date == date then
      { r with current_streak := next.1, best_win_streak := next.2.1,
               worst_loss_streak := next.2.2 }
      else r)
  else
    t ++ [{ date := date, current_streak := next.1, best_win_streak := next.2.1,
            worst_loss_streak := next.2.2 }]

/-- Embedding of `DatabaseQueries.incrementWin` (src/src/db/queries.ts lines
215-238): upsert the wins / total_won of the given date, then run the streak update.
Note the ordering — the row for `date` is inserted (with streak columns
at their 0 default) before `updateStreak` reads it. -/
def incrementWin (amount : ℚ) (date : Nat) (t : List PerfRow) : List PerfRow :=
  let t1 :=
    if t.any (fun r => r.date == date) then
      t.map (fun r => if r.date == date then
        { r with wins := r.wins + 1, total_won := r.total_won + amount } else r)
    else
      t ++ [{ date := date, wins := 1, total_won := amount }]
  updateStreak true date t1

/-- Embedding of `DatabaseQueries.incrementLoss` (src/src/db/queries.ts lines 240-263). -/
def incrementLoss (amount : ℚ) (date : Nat) (t : List PerfRow) : List PerfRow :=
  let t1 :=
    if t.any (fun r => r.date == date) then
      t.map (fun r => if r.date == date then
        { r with losses := r.losses + 1, total_lost := r.total_lost + amount } else r)
    else
      t ++ [{ date := date, losses := 1, total_lost := amount }]
  updateStreak false date t1

/-- Embedding of `DatabaseQueries.incrementTie` (src/src/db/queries.ts lines
265-279): ties never invoke the streak update. -/
def incrementTie (date : Nat) (t : List PerfRow) : List PerfRow :=
  if t.any (fun r => r.date == date) then
    t.map (fun r => if r.date == date then { r with ties := r.ties + 1 } else r)
  else
    t ++ [{ date := date, ties := 1 }]

/-- Embedding of `DatabaseQueries.incrementResolverEarnings` (src/src/db/queries.ts
lines 281-296). -/
def incrementResolverEarnings (amount : ℚ) (date : Nat) (t : List PerfRow) : List PerfRow :=
  if t.any (fun r => r.date == date) then
    t.map (fun r => if r.date == date then
      { r with resolver_earnings := r.resolver_earnings + amount } else r)
  else
    t ++ [{ date := date, resolver_earnings := amount }]

/-- Embedding of `DatabaseQueries.getCurrentStreak` (src/src/db/queries.ts lines
475-479): the streak stored on the most recent row, 0 when empty. -/
def getCurrentStreak (t : List PerfRow) : Int :=
  ((mostRecent t).map PerfRow.current_streak).getD 0

/-- One recorded battle outcome: win flag, amount, and the calendar
date on which `todayDate()` falls when it is recorded. -/
def recordOutcome (t : List PerfRow) (o : Bool × ℚ × Nat) : List PerfRow :=
  match o with
  | (true, amt, d) => incrementWin amt d t
  | (false, amt, d) => incrementLoss amt d t

def recordOutcomes (t : List PerfRow) (os : List (Bool × ℚ × Nat)) : List PerfRow :=
  os.foldl recordOutcome t

/-- Length of the run of `b`s at the head of a list. -/
def headRunLen (b : Bool) : List Bool → Nat
  | [] => 0
  | x :: xs => if x = b then 1 + headRunLen b xs else 0

/-- The signed run-length of the trailing same-outcome subsequence
(positive for wins, negative for losses), as the spec defines the
streak. -/
def signedTrailingRun (os : List Bool) : Int :=
  match os.reverse with
  | [] => 0
  | b :: rest =>
    let n : Int := (headRunLen b rest : Int) + 1
    if b then n else -n

/-- C3 (code bug): recording a win on day 1 and a win on day 2 into a
fresh store leaves `current_streak` at 1, while the claimed invariant
(signed trailing run-length) requires 2. `incrementWin` inserts the new
row of the new day (streak columns at their 0 default) before `updateStreak`
reads it, so the carry-over branch of `updateStreak` never sees the
streak of the prior day, and the streak resets at every day boundary. -/
theorem streak_resets_across_days :
    getCurrentStreak (recordOutcomes [] [(true, 0, 1), (true, 0, 2)]) = 1 ∧
    signedTrailingRun [true, true] = 2 ∧ (1 : Int) ≠ 2 := by
  refine ⟨?_, ?_, ?_⟩ <;> decide

/-! ## Total performance (src/src/db/queries.ts, `getTotalPerformance`) -/

structure TotalPerformance where
  wins : Nat
  losses : Nat
  ties : Nat
  winRate : ℚ
  totalWon : ℚ
  totalLost : ℚ
  resolverEarnings : ℚ
  currentStreak : Int
  bestWinStreak : Int
  worstLossStreak : Int
  deriving Repr, DecidableEq

/-- SQL `COALESCE(SUM(col), 0)`: scan the rows accumulating a sum. -/
def sqlSumNat (f : PerfRow → Nat) (t : List PerfRow) : Nat :=
  t.foldl (fun a r => a + f r) 0

def sqlSumQ (f : PerfRow → ℚ) (t : List PerfRow) : ℚ :=
  t.foldl (fun a r => a + f r) 0

/-- SQL `COALESCE(MAX(col), 0)`: `NULL` (so 0) on an empty table, else the
maximum over all rows. -/
def sqlMaxInt (f : PerfRow → Int) (t : List PerfRow) : Int :=
  (t.foldl (fun a r =>
    match a with
    | none => some (f r)
    | some m => some (max m (f r))) none).getD 0

/-- SQL `COALESCE(MIN(col), 0)`. -/
def sqlMinInt (f : PerfRow → Int) (t : List PerfRow) : Int :=
  (t.foldl (fun a r =>
    match a with
    | none => some (f r)
    | some m => some (min m (f r))) none).getD 0

/-- Embedding of `DatabaseQueries.getTotalPerformance` (src/src/db/queries.ts lines
298-360): one aggregate query summing the counters and money columns
and taking MAX / MIN of the two streak extremes, plus a second query
reading `current_streak` from the most recent row. `winRate` is derived
on the fly. -/
def getTotalPerformance (t : List PerfRow) : TotalPerformance :=
  let wins := sqlSumNat PerfRow.wins t
  let losses := sqlSumNat PerfRow.losses t
  let ties := sqlSumNat PerfRow.ties t
  let total := wins + losses + ties
  { wins := wins
    losses := losses
    ties := ties
    winRate := if 0 < total then ((wins : ℚ) / (total : ℚ)) * 100 else 0
    totalWon := sqlSumQ PerfRow.total_won t
    totalLost := sqlSumQ PerfRow.total_lost t
    resolverEarnings := sqlSumQ PerfRow.resolver_earnings t
    currentStreak := ((mostRecent t).map PerfRow.current_streak).getD 0
    bestWinStreak := sqlMaxInt PerfRow.best_win_streak t
    worstLossStreak := sqlMinInt PerfRow.worst_loss_streak t }

/-- Two stored daily rows, each with best streak 1 and worst streak -1. -/
def tpRow1 : PerfRow := { date := 1, best_win_streak := 1, worst_loss_streak := -1 }

def tpRow2 : PerfRow := { date := 2, best_win_streak := 1, worst_loss_streak := -1 }

/-- Counterexample to C8: `best_win_streak` and `worst_loss_streak` are
not aggregated by summation. On two rows with best streak 1 each, the
code returns 1 (MAX) where the sum required by the claim is 2; likewise -1 (MIN)
instead of -2. -/
theorem total_streak_aggregation_cex :
    (getTotalPerformance [tpRow1, tpRow2]).bestWinStreak = 1 ∧
    (([tpRow1, tpRow2].map PerfRow.best_win_streak).sum = 2) ∧
    (getTotalPerformance [tpRow1, tpRow2]).worstLossStreak = -1 ∧
    (([tpRow1, tpRow2].map PerfRow.worst_loss_streak).sum = -2) ∧
    (1 : Int) ≠ 2 := by
  refine ⟨?_, ?_, ?_, ?_, ?_⟩ <;> decide

theorem foldl_add_eq_sum_nat (f : PerfRow → Nat) (t : List PerfRow) :
    ∀ a, t.foldl (fun a r => a + f r) a = a + (t.map f).sum := by
  induction t with
  | nil => intro a; simp
  | cons r rs ih => intro a; simp [ih]; ring

theorem foldl_add_eq_sum_q (f : PerfRow → ℚ) (t : List PerfRow) :
    ∀ a, t.foldl (fun a r => a + f r) a = a + (t.map f).sum := by
  induction t with
  | nil => intro a; simp
  | cons r rs ih => intro a; simp [ih]; ring

theorem sqlMaxInt_mem (f : PerfRow → Int) (t : List PerfRow) (ht : t ≠ []) :
    sqlMaxInt f t ∈ t.map f ∧ ∀ r ∈ t, f r ≤ sqlMaxInt f t := by
  have key : ∀ (l : List PerfRow) (m : Int),
      (l.foldl (fun a r =>
        match a with
        | none => some (f r)
        | some m => some (max m (f r))) (some m)).getD 0 ∈ m :: l.map f ∧
      ∀ x ∈ m :: l.map f,
        x ≤ (l.foldl (fun a r =>
          match a with
          | none => some (f r)
          | some m => some (max m (f r))) (some m)).getD 0 := by
    intro l
    induction l with
    | nil => intro m; simp
    | cons r rs ih =>
      intro m
      simp only [List.foldl_cons, List.map_cons]
      constructor
      · have h1 := (ih (max m (f r))).1
        rcases List.mem_cons.mp h1 with h | h
        · rcases max_choice m (f r) with hc | hc
          · exact List.mem_cons.mpr (Or.inl (h.trans hc))
          · exact List.mem_cons.mpr (Or.inr (List.mem_cons.mpr (Or.inl (h.trans hc))))
        · exact List.mem_cons.mpr (Or.inr (List.mem_cons.mpr (Or.inr h)))
      · intro x hx
        have h2 := (ih (max m (f r))).2
        rcases List.mem_cons.mp hx with h | h
        · exact h ▸ (le_max_left m (f r)).trans (h2 _ (List.mem_cons_self _ _))
        · rcases List.mem_cons.mp h with h | h
          · exact h ▸ (le_max_right m (f r)).trans (h2 _ (List.mem_cons_self _ _))
          · exact h2 _ (List.mem_cons_of_mem _ h)
  cases t with
  | nil => exact absurd rfl ht
  | cons r rs =>
    have h := key rs (f r)
    unfold sqlMaxInt
    simp only [List.foldl_cons, List.map_cons]
    constructor
    · exact h.1
    · intro r' hr'
      rcases List.mem_cons.mp hr' with h' | h'
      · exact h' ▸ h.2 _ (List.mem_cons_self _ _)
      · exact h.2 _ (List.mem_cons_of_mem _ (List.mem_map_of_mem f h'))

theorem sqlMinInt_mem (f : PerfRow → Int) (t : List PerfRow) (ht : t ≠ []) :
    sqlMinInt f t ∈ t.map f ∧ ∀ r ∈ t, sqlMinInt f t ≤ f r := by
  have key : ∀ (l : List PerfRow) (m : Int),
      (l.foldl (fun a r =>
        match a with
        | none => some (f r)
        | some m => some (min m (f r))) (some m)).getD 0 ∈ m :: l.map f ∧
      ∀ x ∈ m :: l.map f,
        (l.foldl (fun a r =>
          match a with
          | none => some (f r)
          | some m => some (min m (f r))) (some m)).getD 0 ≤ x := by
    intro l
    induction l with
    | nil => intro m; simp
    | cons r rs ih =>
      intro m
      simp only [List.foldl_cons, List.map_cons]
      constructor
      · have h1 := (ih (min m (f r))).1
        rcases List.mem_cons.mp h1 with h | h
        · rcases min_choice m (f r) with hc | hc
          · exact List.mem_cons.mpr (Or.inl (h.trans hc))
          · exact List.mem_cons.mpr (Or.inr (List.mem_cons.mpr (Or.inl (h.trans hc))))
        · exact List.mem_cons.mpr (Or.inr (List.mem_cons.mpr (Or.inr h)))
      · intro x hx
        have h2 := (ih (min m (f r))).2
        rcases List.mem_cons.mp hx with h | h
        · exact (h2 _ (List.mem_cons_self _ _)).trans (h ▸ min_le_left m (f r))
        · rcases List.mem_cons.mp h with h | h
          · exact (h2 _ (List.mem_cons_self _ _)).trans (h ▸ min_le_right m (f r))
          · exact h2 _ (List.mem_cons_of_mem _ h)
  cases t with
  | nil => exact absurd rfl ht
  | cons r rs =>
    have h := key rs (f r)
    unfold sqlMinInt
    simp only [List.foldl_cons, List.map_cons]
    constructor
    · exact h.1
    · intro r' hr'
      rcases List.mem_cons.mp hr' with h' | h'
      · exact h' ▸ h.2 _ (List.mem_cons_self _ _)
      · exact h.2 _ (List.mem_cons_of_mem _ (List.mem_map_of_mem f h'))

theorem mostRecent_spec (t : List PerfRow) (ht : t ≠ []) :
    ∃ r ∈ t, mostRecent t = some r ∧ ∀ r' ∈ t, r'.date ≤ r.date := by
  induction t with
  | nil => exact absurd rfl ht
  | cons x xs ih =>
    cases hxs : xs with
    | nil => exact ⟨x, List.mem_cons_self _ _, by simp [mostRecent], by simp⟩
    | cons y ys =>
      obtain ⟨r, hr, hmr, hmax⟩ := ih (by simp [hxs])
      rw [hxs] at hmr hr hmax
      have hstep : mostRecent (x :: y :: ys) =
          match mostRecent (y :: ys) with
          | none => some x
          | some m => if m.date ≤ x.date then some x else some m := rfl
      by_cases hle : r.date ≤ x.date
      · refine ⟨x, List.mem_cons_self _ _, ?_, ?_⟩
        · rw [hstep, hmr]
          simp [hle]
        · intro r' hr'
          rcases List.mem_cons.mp hr' with h | h
          · exact h ▸ le_rfl
          · exact (hmax r' (hxs ▸ h)).trans hle
      · refine ⟨r, List.mem_cons_of_mem _ (hxs ▸ hr), ?_, ?_⟩
        · rw [hstep, hmr]
          simp [hle]
        · intro r' hr'
          rcases List.mem_cons.mp hr' with h | h
          · exact h ▸ (le_of_not_le hle)
          · exact hmax r' (hxs ▸ h)

/-- C8 (amended): `getTotalPerformance` sums `wins`, `losses`, `ties`,
`totalWon`, `totalLost` and `resolverEarnings` over all stored daily
rows; but `bestWinStreak` is the MAX and `worstLossStreak` the MIN over
the stored rows (0 on an empty table), and `currentStreak` is read from
the row with the most recent date only. -/
theorem getTotalPerformance_aggregation (t : List PerfRow) :
    (getTotalPerformance t).wins = (t.map PerfRow.wins).sum ∧
    (getTotalPerformance t).losses = (t.map PerfRow.losses).sum ∧
    (getTotalPerformance t).ties = (t.map PerfRow.ties).sum ∧
    (getTotalPerformance t).totalWon = (t.map PerfRow.total_won).sum ∧
    (getTotalPerformance t).totalLost = (t.map PerfRow.total_lost).sum ∧
    (getTotalPerformance t).resolverEarnings = (t.map PerfRow.resolver_earnings).sum ∧
    (t ≠ [] → (getTotalPerformance t).bestWinStreak ∈ t.map PerfRow.best_win_streak ∧
      ∀ r ∈ t, r.best_win_streak ≤ (getTotalPerformance t).bestWinStreak) ∧
    (t ≠ [] → (getTotalPerformance t).worstLossStreak ∈ t.map PerfRow.worst_loss_streak ∧
      ∀ r ∈ t, (getTotalPerformance t).worstLossStreak ≤ r.worst_loss_streak) ∧
    (t ≠ [] → ∃ r ∈ t, (getTotalPerformance t).currentStreak = r.current_streak ∧
      ∀ r' ∈ t, r'.date ≤ r.date) := by
  refine ⟨?_, ?_, ?_, ?_, ?_, ?_, ?_, ?_, ?_⟩
  · simpa [getTotalPerformance, sqlSumNat] using foldl_add_eq_sum_nat PerfRow.wins t 0
  · simpa [getTotalPerformance, sqlSumNat] using foldl_add_eq_sum_nat PerfRow.losses t 0
  · simpa [getTotalPerformance, sqlSumNat] using foldl_add_eq_sum_nat PerfRow.ties t 0
  · simpa [getTotalPerformance, sqlSumQ] using foldl_add_eq_sum_q PerfRow.total_won t 0
  · simpa [getTotalPerformance, sqlSumQ] using foldl_add_eq_sum_q PerfRow.total_lost t 0
  · simpa [getTotalPerformance, sqlSumQ] using
      foldl_add_eq_sum_q PerfRow.resolver_earnings t 0
  · intro ht
    simpa [getTotalPerformance] using sqlMaxInt_mem PerfRow.best_win_streak t ht
  · intro ht
    simpa [getTotalPerformance] using sqlMinInt_mem PerfRow.worst_loss_streak t ht
  · intro ht
    obtain ⟨r, hr, hmr, hmax⟩ := mostRecent_spec t ht
    exact ⟨r, hr, by simp [getTotalPerformance, hmr], hmax⟩

/-- Witness for amended C8 on the two-row table. -/
theorem getTotalPerformance_aggregation_witness :
    (getTotalPerformance [tpRow1, tpRow2]).wins = 0 ∧
    (getTotalPerformance [tpRow1, tpRow2]).bestWinStreak ∈
      [tpRow1, tpRow2].map PerfRow.best_win_streak := by
  have h := getTotalPerformance_aggregation [tpRow1, tpRow2]
  refine ⟨?_, (h.2.2.2.2.2.2.1 (by decide)).1⟩
  rw [h.1]
  decide

/-! ## Local wager mirror (src/src/db/queries.ts, `challenges` table)

A stored row of the local mirror (schema in
src/src/db/migrations/001_initial.ts). Nullable columns are `Option`;
the JavaScript `x || null` coercions used by `upsertChallenge` map `""`
(strings) and `0` (numbers) to `NULL`. `synced_at` records the
`CURRENT_TIMESTAMP` of the write, passed in explicitly. -/

structure ChallengeRow where
  id : Nat
  creator : String
  opponent : Option String
  amount : Nat
  direction : Nat
  oracle_index : Nat
  duration : Nat
  start_price : Option String
  end_price : Option String
  created_at : Nat
  started_at : Option Nat
  expires_at : Option Nat
  status : Nat
  winner : Option String
  our_role : Option String
  synced_at : Nat
  deriving Repr, DecidableEq

/-- JavaScript `s || null` for a string value. -/
def strOrNone (s : String) : Option String :=
  if s = "" then none else some s

/-- JavaScript `n || null` for a numeric value. -/
def natOrNone (n : Nat) : Option Nat :=
  if n = 0 then none else some n

/-- The column assignments of the UPDATE branch of
`DatabaseQueries.upsertChallenge` (src/src/db/queries.ts lines 56-71):
set `opponent`, `start_price`, `end_price`, `started_at`, `expires_at`,
`status`, `winner` and `synced_at` from the fresh chain row. -/
def applyUpdate (c : Challenge) (now : Nat) (r : ChallengeRow) : ChallengeRow :=
  { r with
    opponent := strOrNone c.opponent
    start_price := strOrNone c.start_price
    end_price := strOrNone c.end_price
    started_at := natOrNone c.started_at
    expires_at := natOrNone c.expires_at
    status := c.status
    winner := strOrNone c.winner
    synced_at := now }

/-- The full row written by the INSERT branch of
`DatabaseQueries.upsertChallenge` (src/src/db/queries.ts lines 74-96). -/
def insertedRow (c : Challenge) (ourRole : Option String) (now : Nat) : ChallengeRow :=
  { id := c.id, creator := c.creator, opponent := strOrNone c.opponent,
    amount := c.amount, direction := c.direction,
    oracle_index := c.oracle_index, duration := c.duration,
    start_price := strOrNone c.start_price, end_price := strOrNone c.end_price,
    created_at := c.created_at, started_at := natOrNone c.started_at,
    expires_at := natOrNone c.expires_at, status := c.status,
    winner := strOrNone c.winner, our_role := ourRole, synced_at := now }

/-- Embedding of `DatabaseQueries.upsertChallenge` (src/src/db/queries.ts lines
50-99): if a row with the id of the challenge exists, UPDATE it in place;
otherwise INSERT a full row whose `our_role` is the passed role. -/
def upsertChallenge (t : List ChallengeRow) (c : Challenge) (ourRole : Option String)
    (now : Nat) : List ChallengeRow :=
  if t.any (fun r => r.id == c.id) then
    t.map (fun r => if r.id == c.id then applyUpdate c now r else r)
  else
    t ++ [insertedRow c ourRole now]

/-- The role computed inside `upsertChallenges` (src/src/db/queries.ts
lines 101-110) from the configured account. -/
def deriveOurRole (c : Challenge) (account : String) : Option String :=
  if c.creator = account then some "creator"
  else if c.opponent = account then some "opponent"
  else none

/-- Embedding of `DatabaseQueries.upsertChallenges`: upsert each pulled row with the
role derived from the configured account. -/
def upsertChallenges (t : List ChallengeRow) (cs : List Challenge) (account : String)
    (now : Nat) : List ChallengeRow :=
  cs.foldl (fun acc c => upsertChallenge acc c (deriveOurRole c account) now) t

/-- An open wager created by alice, not yet accepted. -/
def c7Initial : Challenge :=
  { id := 1, creator := "alice", opponent := "", amount := 1000000, direction := 1,
    oracle_index := 4, duration := 300, start_price := "", end_price := "",
    created_at := 100, started_at := 0, expires_at := 400, status := 0, winner := "" }

/-- The same wager after bob accepted it on chain. -/
def c7Accepted : Challenge :=
  { c7Initial with
    opponent := "bob"
    started_at := 150
    start_price := "9000000000000"
    status := 1 }

/-- Counterexample to C7: the mirror of bob first syncs the wager while it is
open (stored `our_role = NULL`, bob is neither side); after bob accepts
it on chain, the re-sync takes the update path, which does not touch
`our_role` — the stored value stays `NULL` even though deriving the role
from the fresh row yields `opponent`. -/
theorem upsert_stale_our_role_cex :
    ((upsertChallenges (upsertChallenges [] [c7Initial] "bob" 10) [c7Accepted] "bob" 20).find?
        (fun r => r.id == 1)).map ChallengeRow.our_role = some none ∧
    deriveOurRole c7Accepted "bob" = some "opponent" := by
  refine ⟨?_, ?_⟩ <;> decide

theorem find?_append_singleton {β : Type} (p : β → Bool) (l : List β) (y : β)
    (hl : ∀ x ∈ l, ¬ p x = true) (hy : p y = true) :
    (l ++ [y]).find? p = some y := by
  induction l with
  | nil => simp [List.find?, hy]
  | cons x xs ih =>
    have hx : p x = false := Bool.eq_false_iff.mpr (hl x (List.mem_cons_self _ _))
    rw [List.cons_append, List.find?_cons_of_neg _ (by simp [hx])]
    exact ih (fun z hz => hl z (List.mem_cons_of_mem _ hz))

theorem find?_map_applyUpdate (c : Challenge) (now : Nat) : ∀ (t : List ChallengeRow),
    ((t.map (fun r => if r.id == c.id then applyUpdate c now r else r)).find?
        (fun r => r.id == c.id)).map ChallengeRow.our_role =
      (t.find? (fun r => r.id == c.id)).map ChallengeRow.our_role := by
  intro t
  induction t with
  | nil => rfl
  | cons x xs ih =>
    by_cases hx : (x.id == c.id) = true
    · have hid : ((applyUpdate c now x).id == c.id) = true := hx
      have e1 : List.find? (fun r => r.id == c.id)
          (applyUpdate c now x ::
            xs.map (fun r => if r.id == c.id then applyUpdate c now r else r)) =
          some (applyUpdate c now x) := List.find?_cons_of_pos _ hid
      have e2 : List.find? (fun r => r.id == c.id) (x :: xs) = some x :=
        List.find?_cons_of_pos _ hx
      rw [List.map_cons, if_pos hx, e1, e2]
      rfl
    · have e1 : List.find? (fun r => r.id == c.id)
          (x :: xs.map (fun r => if r.id == c.id then applyUpdate c now r else r)) =
          List.find? (fun r => r.id == c.id)
            (xs.map (fun r => if r.id == c.id then applyUpdate c now r else r)) :=
        List.find?_cons_of_neg _ hx
      have e2 : List.find? (fun r => r.id == c.id) (x :: xs) =
          List.find? (fun r => r.id == c.id) xs :=
        List.find?_cons_of_neg _ hx
      rw [List.map_cons, if_neg hx, e1, e2]
      exact ih

theorem upsertChallenge_find_eq (t : List ChallengeRow) (c : Challenge)
    (role : Option String) (now : Nat) :
    ((upsertChallenge t c role now).find? (fun r => r.id == c.id)).map ChallengeRow.our_role =
      some (((t.find? (fun r => r.id == c.id)).map ChallengeRow.our_role).getD role) := by
  unfold upsertChallenge
  by_cases hmem : t.any (fun r => r.id == c.id)
  · rw [if_pos hmem, find?_map_applyUpdate]
    obtain ⟨r, hr, hpr⟩ := List.any_eq_true.mp hmem
    cases hfind : t.find? (fun r => r.id == c.id) with
    | none => exact absurd hpr (by simpa using List.find?_eq_none.mp hfind r hr)
    | some r' => rfl
  · have hl : ∀ x ∈ t, ¬ (x.id == c.id) = true := by
      intro x hx hpx
      exact hmem (List.any_eq_true.mpr ⟨x, hx, hpx⟩)
    have hnone : t.find? (fun r => r.id == c.id) = none :=
      List.find?_eq_none.mpr hl
    rw [if_neg hmem, find?_append_singleton _ t (insertedRow c role now) hl (by
      simp [insertedRow]), hnone]
    rfl

/-- C7 (amended): `our_role` is derived from the configured account and
stored only when a wager row is first inserted into the mirror; when the
id is already present, the update path leaves the previously stored
`our_role` unchanged (it is not re-derived from the fresh row). Stated
through the row `upsertChallenge` leaves under the wager id: the
stored role is the role of the old row when one existed, and the freshly
derived role otherwise. -/
theorem upsert_our_role_insert_only (t : List ChallengeRow) (c : Challenge)
    (account : String) (now : Nat) :
    ((upsertChallenge t c (deriveOurRole c account) now).find?
        (fun r => r.id == c.id)).map ChallengeRow.our_role =
      some (((t.find? (fun r => r.id == c.id)).map ChallengeRow.our_role).getD
        (deriveOurRole c account)) :=
  upsertChallenge_find_eq t c (deriveOurRole c account) now

/-- The mirror row stored for `c7Initial` on the bot run by alice. -/
def c10Row : ChallengeRow :=
  { id := 1, creator := "alice", opponent := none, amount := 1000000, direction := 1,
    oracle_index := 4, duration := 300, start_price := none, end_price := none,
    created_at := 100, started_at := none, expires_at := some 400, status := 0,
    winner := none, our_role := some "creator", synced_at := 10 }

/-- C10: when the challenge id is already present, `upsertChallenge`
rewrites each matching row with `applyUpdate` (which assigns exactly
`opponent`, `start_price`, `end_price`, `started_at`, `expires_at`,
`status`, `winner`, `synced_at`) and leaves every other row untouched;
`applyUpdate` preserves the stored `creator`, `amount`, `direction`,
`oracle_index`, `duration`, `created_at` and `our_role`. -/
theorem upsertChallenge_update_frame (t : List ChallengeRow) (c : Challenge)
    (role : Option String) (now : Nat) (h : ∃ r0 ∈ t, r0.id = c.id) :
    upsertChallenge t c role now =
      t.map (fun r => if r.id == c.id then applyUpdate c now r else r) ∧
    ∀ r : ChallengeRow,
      (applyUpdate c now r).creator = r.creator ∧
      (applyUpdate c now r).amount = r.amount ∧
      (applyUpdate c now r).direction = r.direction ∧
      (applyUpdate c now r).oracle_index = r.oracle_index ∧
      (applyUpdate c now r).duration = r.duration ∧
      (applyUpdate c now r).created_at = r.created_at ∧
      (applyUpdate c now r).our_role = r.our_role ∧
      (applyUpdate c now r).opponent = strOrNone c.opponent ∧
      (applyUpdate c now r).start_price = strOrNone c.start_price ∧
      (applyUpdate c now r).end_price = strOrNone c.end_price ∧
      (applyUpdate c now r).started_at = natOrNone c.started_at ∧
      (applyUpdate c now r).expires_at = natOrNone c.expires_at ∧
      (applyUpdate c now r).status = c.status ∧
      (applyUpdate c now r).winner = strOrNone c.winner ∧
      (applyUpdate c now r).synced_at = now := by
  obtain ⟨r0, hr0, hid⟩ := h
  have hmem : t.any (fun r => r.id == c.id) :=
    List.any_eq_true.mpr ⟨r0, hr0, by simpa using hid⟩
  constructor
  · unfold upsertChallenge
    rw [if_pos hmem]
  · intro r
    refine ⟨rfl, rfl, rfl, rfl, rfl, rfl, rfl, rfl, rfl, rfl, rfl, rfl, rfl, rfl, rfl⟩

/-- Witness for C10: re-syncing the accepted wager over alice's stored
row keeps `creator`, `amount` and `our_role`, and rewrites the lifecycle
fields from the fresh chain row. -/
theorem upsertChallenge_update_frame_witness :
    upsertChallenge [c10Row] c7Accepted (some "creator") 20 =
      [c10Row].map (fun r => if r.id == c7Accepted.id then applyUpdate c7Accepted 20 r else r) ∧
    (applyUpdate c7Accepted 20 c10Row).our_role = c10Row.our_role ∧
    (applyUpdate c7Accepted 20 c10Row).creator = c10Row.creator ∧
    (applyUpdate c7Accepted 20 c10Row).amount = c10Row.amount :=
  have h := upsertChallenge_update_frame [c10Row] c7Accepted (some "creator") 20
    ⟨c10Row, List.mem_cons_self _ _, by decide⟩
  ⟨h.1, (h.2 c10Row).2.2.2.2.2.2.1, (h.2 c10Row).1, (h.2 c10Row).2.1⟩

/-! ## Strategy tick guards (src/src/strategies/passive.ts,
src/src/strategies/aggressive.ts)

Both `tick()` methods first run resolve/expire; what happens next is
decided by a chain of early returns. The phase a tick reaches after the
resolve/expire step is a pure function of the paused flag read from the
remote config and of the performance row of the current day against the configured
maximum daily loss. -/

inductive TickPhase where
  | abortPaused
  | abortDailyLoss
  | trading
  deriving Repr, DecidableEq

/-- Embedding of `AggressiveStrategy.tick` after resolve/expire
(src/src/strategies/aggressive.ts lines 68-137): return early when the
contract is paused; then return early when the daily
`totalLost - totalWon` has reached `risk.maxDailyLoss`; otherwise
execution proceeds to the creation and acceptance logic. -/
def aggressiveTickPhase (paused : Bool) (totalWon totalLost maxDailyLoss : ℚ) :
    TickPhase :=
  if paused then .abortPaused
  else if maxDailyLoss ≤ totalLost - totalWon then .abortDailyLoss
  else .trading

/-- Embedding of `PassiveStrategy.tick` after resolve/expire
(src/src/strategies/passive.ts lines 68-109): the only early return
before the creation and acceptance logic is the paused check — this
strategy performs no daily-loss check. -/
def passiveTickPhase (paused : Bool) (_totalWon _totalLost _maxDailyLoss : ℚ) :
    TickPhase :=
  if paused then .abortPaused
  else .trading

/-- Counterexample to C6: with the contract not paused and the daily
losses at 100 against a configured maximum daily loss of 50, the
passive (Conservative) tick still reaches the creation/acceptance
phase — it does not abort on the daily-loss guard as the claim states
both policies do. -/
theorem passive_tick_ignores_daily_loss :
    passiveTickPhase false 0 100 50 = TickPhase.trading ∧
    (50 : ℚ) ≤ 100 - 0 := by
  constructor
  · rfl
  · norm_num

/-- C6 (amended): only the Active (aggressive) policy enforces the
daily-loss guard — its tick reaches the creation/acceptance phase
exactly when it is not paused and the daily `totalLost - totalWon` is
below the configured maximum; the tick of the Conservative (passive) policy
reaches that phase whenever the contract is not paused, regardless of
the daily loss. -/
theorem daily_loss_guard_active_only (paused : Bool) (tw tl m : ℚ) :
    (aggressiveTickPhase paused tw tl m = TickPhase.trading ↔
      paused = false ∧ tl - tw < m) ∧
    (passiveTickPhase paused tw tl m = TickPhase.trading ↔ paused = false) := by
  unfold aggressiveTickPhase passiveTickPhase
  cases paused
  · constructor
    · by_cases h : m ≤ tl - tw
      · simp [h]
      · simp [h, not_le.mp h]
    · simp
  · constructor <;> simp

/-- Witness for amended C6: concrete guard inputs on the aggressive and
passive ticks. -/
theorem daily_loss_guard_active_only_witness :
    aggressiveTickPhase false 0 100 50 ≠ TickPhase.trading ∧
    passiveTickPhase false 0 100 50 = TickPhase.trading :=
  ⟨fun h => by
    have := ((daily_loss_guard_active_only false 0 100 50).1.mp h).2
    norm_num at this,
   (daily_loss_guard_active_only false 0 100 50).2.mpr rfl⟩

/-! ## Decision log (src/src/db/queries.ts, `decisions` table) -/

structure DecisionRow where
  challenge_id : Option Nat
  action : String
  direction : Option String
  confidence : Option ℚ
  confidence_bucket : Option String
  reasoning : Option String
  ai_provider : Option String
  ai_model : Option String
  price_at_decision : Option ℚ
  deriving Repr, DecidableEq

/-- Embedding of `DatabaseQueries.getConfidenceBucket` (src/src/db/queries.ts lines
171-176). -/
def getConfidenceBucket (confidence : ℚ) : String :=
  if 90 ≤ confidence then "very_high"
  else if 75 ≤ confidence then "high"
  else if 60 ≤ confidence then "medium"
  else "low"

/-- The optional parameters of `DatabaseQueries.logDecision`. -/
structure DecisionParams where
  challengeId : Option Nat := none
  action : String
  direction : Option String := none
  confidence : Option ℚ := none
  reasoning : Option String := none
  aiProvider : Option String := none
  aiModel : Option String := none
  priceAtDecision : Option ℚ := none

/-- Embedding of `DatabaseQueries.logDecision` (src/src/db/queries.ts lines 135-168):
append one row, deriving the confidence bucket when a confidence value
is present. -/
def logDecision (t : List DecisionRow) (p : DecisionParams) : List DecisionRow :=
  t ++ [{ challenge_id := p.challengeId, action := p.action, direction := p.direction,
          confidence := p.confidence,
          confidence_bucket := p.confidence.map getConfidenceBucket,
          reasoning := p.reasoning, ai_provider := p.aiProvider, ai_model := p.aiModel,
          price_at_decision := p.priceAtDecision }]

/-! ## Transaction signer (src/src/blockchain/signer.ts) and resolver
executor (src/src/services/resolver.ts)

`TransactionSigner.transact` either fabricates a dry-run receipt without
contacting the ledger, or submits for real; the outcome of a real
submission (a transaction id, or a transport error) is a parameter of the
embedding. `ResolverService.resolveBattle` is embedded as a function of
the wager, the clock, the oracle read's outcome, the signer's mode and
the network outcome, returning the result, the updated local store, and
whether a real ledger submission happened. -/

structure TransactResult where
  transaction_id : String
  deriving Repr, DecidableEq

/-- Hex rendering of `Date.now().toString(16)`. -/
def hexString (n : Nat) : String :=
  String.mk (Nat.toDigits 16 n)

/-- Embedding of `TransactionSigner.transact` (src/src/blockchain/signer.ts lines
30-94): in dry-run mode return a synthetic receipt immediately without
any network call; otherwise the real submission either succeeds with a
transaction id or throws the transport error. -/
def transact (dryRun : Bool) (nowMs : Nat) (network : Except String String) :
    Except String TransactResult :=
  if dryRun then .ok ⟨"dry_run_" ++ hexString nowMs⟩
  else network.map (fun txId => ⟨txId⟩)

structure ResolveResult where
  challengeId : Nat
  success : Bool
  txId : Option String := none
  error : Option String := none
  resolverReward : Option ℚ := none
  deriving Repr, DecidableEq

/-- The local store touched by the resolver: the `performance` table
and the `decisions` log. -/
structure DbState where
  performance : List PerfRow
  decisions : List DecisionRow
  deriving Repr, DecidableEq

structure ResolveOutcome where
  result : ResolveResult
  db : DbState
  submittedToLedger : Bool
  deriving Repr, DecidableEq

/-- Embedding of `ResolverService.resolveBattle` (src/src/services/resolver.ts lines
56-137): re-check `now ≥ started_at + duration` and `status == ACTIVE`,
returning a typed failure before any oracle read or ledger call when
either fails; then read the oracle, submit the resolve action through
the signer, compute the resolver reward as 2% of the combined pot
(`parseInt(amount) * 2 * 0.02`, exact rationals for the JS floats),
record `reward / 10000` display units into resolver earnings for
`todayDate()` (passed as `today`), and append a `resolve` decision row.
Errors thrown by the oracle read or the submission are caught and
returned as failures. -/
def resolveBattle (c : Challenge) (now : Nat) (oracle : Except String ℚ)
    (dryRun : Bool) (nowMs : Nat) (network : Except String String)
    (today : Nat) (db : DbState) : ResolveOutcome :=
  let endTime := c.started_at + c.duration
  if now < endTime then
    ⟨{ challengeId := c.id, success := false,
       error := some ("Battle not yet ended. Ends in " ++
         toString (endTime - now) ++ " seconds") }, db, false⟩
  else if c.status ≠ BATTLE_STATUS.ACTIVE then
    ⟨{ challengeId := c.id, success := false,
       error := some ("Invalid status: " ++ toString c.status) }, db, false⟩
  else
    match oracle with
    | .error msg => ⟨{ challengeId := c.id, success := false, error := some msg }, db, false⟩
    | .ok price =>
      match transact dryRun nowMs network with
      | .error msg =>
        ⟨{ challengeId := c.id, success := false, error := some msg }, db, !dryRun⟩
      | .ok tx =>
        let pot : ℚ := (c.amount : ℚ) * 2
        let resolverReward : ℚ := pot * (2 / 100)
        let db1 : DbState :=
          { db with performance :=
              incrementResolverEarnings (resolverReward / 10000) today db.performance }
        let params : DecisionParams :=
          { challengeId := some c.id
            action := "resolve"
            priceAtDecision := some price }
        let db2 : DbState :=
          { db1 with decisions := logDecision db1.decisions params }
        ⟨{ challengeId := c.id, success := true, txId := some tx.transaction_id,
           resolverReward := some (resolverReward / 10000) }, db2, !dryRun⟩

/-- C5: if at execution time the wager has not matured
(`now < started_at + duration`) or its status is not Active,
`resolveBattle` returns a failure with an error message, submits nothing
to the ledger, and leaves the local performance/decision store
untouched. -/
theorem resolveBattle_guard_failure (c : Challenge) (now : Nat)
    (oracle : Except String ℚ) (dryRun : Bool) (nowMs : Nat)
    (network : Except String String) (today : Nat) (db : DbState)
    (h : now < c.started_at + c.duration ∨ c.status ≠ BATTLE_STATUS.ACTIVE) :
    (resolveBattle c now oracle dryRun nowMs network today db).result.success = false ∧
    (resolveBattle c now oracle dryRun nowMs network today db).result.error.isSome = true ∧
    (resolveBattle c now oracle dryRun nowMs network today db).db = db ∧
    (resolveBattle c now oracle dryRun nowMs network today db).submittedToLedger = false := by
  unfold resolveBattle
  by_cases h1 : now < c.started_at + c.duration
  · simp [h1]
  · have h2 : c.status ≠ BATTLE_STATUS.ACTIVE := h.resolve_left h1
    simp [h1, h2]

/-- A wager whose duration has not yet elapsed at execution time. -/
def c5Sample : Challenge :=
  { id := 3, creator := "alice", opponent := "bob", amount := 1000000, direction := 1,
    oracle_index := 4, duration := 600, start_price := "9000000000000", end_price := "",
    created_at := 50, started_at := 100, expires_at := 0, status := 1, winner := "" }

/-- Witness for C5: at `now = 200` the wager ends at 700, so the resolve
attempt fails without touching ledger or store. -/
theorem resolveBattle_guard_failure_witness :
    (resolveBattle c5Sample 200 (.ok 90000) false 7 (.ok "tx1") 1
      ⟨[], []⟩).result.success = false ∧
    (resolveBattle c5Sample 200 (.ok 90000) false 7 (.ok "tx1") 1
      ⟨[], []⟩).result.error.isSome = true ∧
    (resolveBattle c5Sample 200 (.ok 90000) false 7 (.ok "tx1") 1
      ⟨[], []⟩).db = ⟨[], []⟩ ∧
    (resolveBattle c5Sample 200 (.ok 90000) false 7 (.ok "tx1") 1
      ⟨[], []⟩).submittedToLedger = false :=
  resolveBattle_guard_failure c5Sample 200 (.ok 90000) false 7 (.ok "tx1") 1
    ⟨[], []⟩ (Or.inl (by decide))

/-- The `resolver_earnings` recorded for a date (0 when no row). -/
def perfResolverEarnings (t : List PerfRow) (d : Nat) : ℚ :=
  ((findRow t d).map PerfRow.resolver_earnings).getD 0

theorem findRow_increment_earnings (a : ℚ) (d : Nat) : ∀ (t : List PerfRow),
    perfResolverEarnings (incrementResolverEarnings a d t) d =
      perfResolverEarnings t d + a := by
  intro t
  unfold incrementResolverEarnings
  by_cases hmem : t.any (fun r => r.date == d)
  · rw [if_pos hmem]
    have key : ∀ (u : List PerfRow), u.any (fun r => r.date == d) = true →
        (u.map (fun r => if r.date == d then
          { r with resolver_earnings := r.resolver_earnings + a } else r)).find?
            (fun r => r.date == d) =
          (u.find? (fun r => r.date == d)).map
            (fun r => { r with resolver_earnings := r.resolver_earnings + a }) := by
      intro u
      induction u with
      | nil => intro hu; simp at hu
      | cons x xs ih =>
        intro _
        by_cases hx : (x.date == d) = true
        · have hx' : (({ x with resolver_earnings := x.resolver_earnings + a} :
              PerfRow).date == d) = true := hx
          have e1 : List.find? (fun r => r.date == d)
              (({ x with resolver_earnings := x.resolver_earnings + a} : PerfRow) ::
                xs.map (fun r => if r.date == d then
                  { r with resolver_earnings := r.resolver_earnings + a } else r)) =
              some { x with resolver_earnings := x.resolver_earnings + a } :=
            List.find?_cons_of_pos _ hx'
          have e2 : List.find? (fun r => r.date == d) (x :: xs) = some x :=
            List.find?_cons_of_pos _ hx
          rw [List.map_cons, if_pos hx, e1, e2]
          rfl
        · have e1 : List.find? (fun r => r.date == d)
              (x :: xs.map (fun r => if r.date == d then
                { r with resolver_earnings := r.resolver_earnings + a } else r)) =
              List.find? (fun r => r.date == d)
                (xs.map (fun r => if r.date == d then
                  { r with resolver_earnings := r.resolver_earnings + a } else r)) :=
            List.find?_cons_of_neg _ hx
          have e2 : List.find? (fun r => r.date == d) (x :: xs) =
              List.find? (fun r => r.date == d) xs := List.find?_cons_of_neg _ hx
          rw [List.map_cons, if_neg hx, e1, e2]
          by_cases hxs : xs.any (fun r => r.date == d) = true
          · exact ih hxs
          · have hnone : xs.find? (fun r => r.date == d) = none := by
              rw [List.find?_eq_none]
              intro r hr hpr
              exact absurd (List.any_eq_true.mpr ⟨r, hr, hpr⟩) hxs
            have hnone' : (xs.map (fun r => if r.date == d then
                { r with resolver_earnings := r.resolver_earnings + a } else r)).find?
                  (fun r => r.date == d) = none := by
              rw [List.find?_eq_none]
              intro r hr hpr
              obtain ⟨r0, hr0, hr0e⟩ := List.mem_map.mp hr
              by_cases h0 : (r0.date == d) = true
              · exact absurd (List.any_eq_true.mpr ⟨r0, hr0, h0⟩) hxs
              · rw [if_neg h0] at hr0e
                exact absurd (hr0e ▸ hpr) h0
            rw [hnone, hnone']
            rfl
    obtain ⟨r, hr, hpr⟩ := List.any_eq_true.mp hmem
    unfold perfResolverEarnings findRow
    rw [key t hmem]
    cases hfind : t.find? (fun r => r.date == d) with
    | none => exact absurd hpr (by simpa using List.find?_eq_none.mp hfind r hr)
    | some r' =>
      simp only [Option.map_map, Option.map_some]
      rfl
  · rw [if_neg hmem]
    have hl : ∀ x ∈ t, ¬ (x.date == d) = true := by
      intro x hx hpx
      exact hmem (List.any_eq_true.mpr ⟨x, hx, hpx⟩)
    have hnone : t.find? (fun r => r.date == d) = none := List.find?_eq_none.mpr hl
    unfold perfResolverEarnings findRow
    rw [find?_append_singleton _ t ({ date := d, resolver_earnings := a } : PerfRow)
      hl (by simp), hnone]
    simp

/-- C2: whenever `resolveBattle` succeeds, the returned
`resolverReward` is exactly 2% of the combined pot — `amount × 2 × 0.02`
in raw fixed-point units, divided by 10000 for display — and the
resolver-earnings entry recorded for the day grows by exactly that
amount. -/
theorem resolveBattle_reward_exact (c : Challenge) (now : Nat)
    (oracle : Except String ℚ) (dryRun : Bool) (nowMs : Nat)
    (network : Except String String) (today : Nat) (db : DbState)
    (h : (resolveBattle c now oracle dryRun nowMs network today db).result.success = true) :
    (resolveBattle c now oracle dryRun nowMs network today db).result.resolverReward =
      some ((c.amount : ℚ) * 2 * (2 / 100) / 10000) ∧
    perfResolverEarnings
        (resolveBattle c now oracle dryRun nowMs network today db).db.performance today =
      perfResolverEarnings db.performance today +
        (c.amount : ℚ) * 2 * (2 / 100) / 10000 := by
  unfold resolveBattle at h ⊢
  by_cases h1 : now < c.started_at + c.duration
  · rw [if_pos h1] at h
    exact absurd h (by simp)
  · rw [if_neg h1] at h ⊢
    by_cases h2 : c.status ≠ BATTLE_STATUS.ACTIVE
    · rw [if_pos h2] at h
      exact absurd h (by simp)
    · rw [if_neg h2] at h ⊢
      cases oracle with
      | error msg => exact absurd h (by simp)
      | ok price =>
        cases htx : transact dryRun nowMs network with
        | error msg =>
          rw [htx] at h
          simp at h
        | ok tx =>
          refine ⟨rfl, ?_⟩
          exact findRow_increment_earnings ((c.amount : ℚ) * 2 * (2 / 100) / 10000)
            today db.performance

/-- The claimed fee scenario: per-side stake 100.0000 XPR (raw amount
1000000). -/
def c2Sample : Challenge :=
  { id := 9, creator := "alice", opponent := "bob", amount := 1000000, direction := 1,
    oracle_index := 4, duration := 300, start_price := "9000000000000", end_price := "",
    created_at := 50, started_at := 100, expires_at := 0, status := 1, winner := "" }

/-- Witness for C2: resolving the 100.0000-per-side wager yields a
reward of exactly 4.0000 display units, both returned and recorded. -/
theorem resolveBattle_reward_exact_witness :
    (resolveBattle c2Sample 500 (.ok 90000) false 7 (.ok "tx1") 1
      ⟨[], []⟩).result.resolverReward = some 4 ∧
    perfResolverEarnings
      (resolveBattle c2Sample 500 (.ok 90000) false 7 (.ok "tx1") 1
        ⟨[], []⟩).db.performance 1 = 4 := by
  have h := resolveBattle_reward_exact c2Sample 500 (.ok 90000) false 7 (.ok "tx1") 1
    ⟨[], []⟩ (by decide)
  have hval : (c2Sample.amount : ℚ) * 2 * (2 / 100) / 10000 = 4 := by
    norm_num [c2Sample]
  refine ⟨?_, ?_⟩
  · rw [h.1, hval]
  · rw [h.2, hval]
    norm_num [perfResolverEarnings, findRow]

/-- C9: in dry-run mode, a `resolveBattle` call whose preconditions
hold and whose oracle read succeeds performs exactly the same
local-store mutations as real mode with a successful submission — the
same resolver-earnings increment and the same appended `resolve`
decision row — returns success, and contacts the ledger not at all. -/
theorem resolveBattle_dry_run_frame (c : Challenge) (now : Nat) (price : ℚ)
    (nowMs nowMs' : Nat) (network : Except String String) (txId : String)
    (today : Nat) (db : DbState)
    (h1 : c.started_at + c.duration ≤ now) (h2 : c.status = BATTLE_STATUS.ACTIVE) :
    (resolveBattle c now (.ok price) true nowMs network today db).result.success = true ∧
    (resolveBattle c now (.ok price) true nowMs network today db).db =
      (resolveBattle c now (.ok price) false nowMs' (.ok txId) today db).db ∧
    (resolveBattle c now (.ok price) true nowMs network today db).submittedToLedger
      = false ∧
    (resolveBattle c now (.ok price) false nowMs' (.ok txId) today db).submittedToLedger
      = true ∧
    (resolveBattle c now (.ok price) true nowMs network today db).db.performance =
      incrementResolverEarnings ((c.amount : ℚ) * 2 * (2 / 100) / 10000) today
        db.performance ∧
    (resolveBattle c now (.ok price) true nowMs network today db).db.decisions =
      logDecision db.decisions
        { challengeId := some c.id, action := "resolve",
          priceAtDecision := some price } := by
  have hlt : ¬ now < c.started_at + c.duration := not_lt.mpr h1
  have hst : ¬ c.status ≠ BATTLE_STATUS.ACTIVE := fun hc => hc h2
  unfold resolveBattle
  rw [if_neg hlt, if_neg hlt, if_neg hst, if_neg hst]
  exact ⟨rfl, rfl, rfl, rfl, rfl, rfl⟩

/-- Witness for C9: a concrete matured active wager resolved in dry-run
mode against a real-mode run on the same store. -/
theorem resolveBattle_dry_run_frame_witness :
    (resolveBattle c2Sample 500 (.ok 90000) true 7 (.ok "tx1") 1
      ⟨[], []⟩).result.success = true ∧
    (resolveBattle c2Sample 500 (.ok 90000) true 7 (.ok "tx1") 1 ⟨[], []⟩).db =
      (resolveBattle c2Sample 500 (.ok 90000) false 8 (.ok "tx1") 1 ⟨[], []⟩).db ∧
    (resolveBattle c2Sample 500 (.ok 90000) true 7 (.ok "tx1") 1
      ⟨[], []⟩).submittedToLedger = false ∧
    (resolveBattle c2Sample 500 (.ok 90000) false 8 (.ok "tx1") 1
      ⟨[], []⟩).submittedToLedger = true ∧
    (resolveBattle c2Sample 500 (.ok 90000) true 7 (.ok "tx1") 1
      ⟨[], []⟩).db.performance =
      incrementResolverEarnings ((c2Sample.amount : ℚ) * 2 * (2 / 100) / 10000) 1 [] ∧
    (resolveBattle c2Sample 500 (.ok 90000) true 7 (.ok "tx1") 1
      ⟨[], []⟩).db.decisions =
      logDecision []
        { challengeId := some c2Sample.id, action := "resolve",
          priceAtDecision := some 90000 } :=
  resolveBattle_dry_run_frame c2Sample 500 90000 7 8 (.ok "tx1") "tx1" 1 ⟨[], []⟩
    (by decide) (by decide)

end PriceBattle
